import Mathlib

/-!
Verification development for the contact-manager core (`src/hw_module_1.py`).

The Python module is embedded shallowly:
* exceptions become the inductive `PyExn` (carrying the exception message);
* mutating methods on `Record` become functions `Record → Record × Option PyExn`
  (the returned record is the post-state; `some e` means the Python call raised `e`,
  and the returned record is then the state the object was left in);
* the `AddressBook` dict becomes an association list with Python-dict
  insert-or-overwrite semantics (overwrite keeps the key's position);
* `datetime.date` becomes the `PyDate` structure with the proleptic-Gregorian
  ordinal used by CPython (`date.toordinal`), and `datetime.strptime` with the
  fixed pattern `"%d.%m.%Y"` is embedded following the regular expressions CPython's
  `_strptime` builds for `%d`, `%m`, `%Y` (day `3[01]|[12]\d|0[1-9]|[1-9]`,
  month `1[0-2]|0[1-9]|[1-9]`, year `\d\d\d\d`, the whole string must match).
  The character classes written as explicit characters (`3`, `[01]`, `[1-9]`, …)
  are ASCII, but `\d` matches any Unicode decimal digit (category Nd), and the
  subsequent `int()` conversion also accepts Unicode decimal digits, so e.g.
  `"12.06.٢٠٢٤"` and `"1٢.06.2024"` parse to 12.06.2024; the embedding models
  this with `pyDecDigit`/`pyDigitVal`.
-/

namespace HW1

/-- Python exception values, with the message string the code raises them with
(`str(e)`; a bare `raise ValueError` carries the empty message). -/
inductive PyExn where
  | valueError (msg : String)
  | keyError (msg : String)
  | indexError (msg : String)
  | attributeError (msg : String)
deriving DecidableEq, Repr

/-- The error→message translation performed by the `input_error` decorator
(lines 149–161 of the source): it catches each exception class and returns a
fixed user-facing string. -/
def input_error : PyExn → String
  | .keyError _ => "Contact is not found."
  | .valueError _ => "Insufficient data"
  | .indexError _ => "Enter a name of contact."
  | .attributeError _ => "Contact not found."

/-- Python's `str.isnumeric` character test: true exactly for characters with a
Unicode numeric value. This model covers ASCII digits plus the non-ASCII
Unicode numeric ranges exercised below (Arabic-Indic and extended Arabic-Indic
digits, Devanagari digits, Latin-1 superscripts and vulgar fractions); Python
accepts further Unicode numerics, none of which appear in any statement in this
file. Among ASCII characters the model is exact: only `'0'..'9'` are numeric. -/
def pyIsNumericChar (c : Char) : Bool :=
  c.isDigit
  || (0x660 ≤ c.toNat && c.toNat ≤ 0x669)
  || (0x6F0 ≤ c.toNat && c.toNat ≤ 0x6F9)
  || (0x966 ≤ c.toNat && c.toNat ≤ 0x96F)
  || c.toNat == 0xB2 || c.toNat == 0xB3 || c.toNat == 0xB9
  || (0xBC ≤ c.toNat && c.toNat ≤ 0xBE)

/-- Python `s.isnumeric()`: nonempty and every character numeric. -/
def pyIsNumeric (s : String) : Bool :=
  !s.toList.isEmpty && s.toList.all pyIsNumericChar

/-- `Phone.phone_validation` (source lines 24–25):
`len(value) == 10 and value.isnumeric()`. -/
def phone_validation (value : String) : Bool :=
  value.length == 10 && pyIsNumeric value

/-- `Name.__init__` validation (source lines 13–16): `not value.strip()` is true
exactly when every character of the string is whitespace (including the empty
string), in which case `ValueError("Name cannot be empty")` is raised. -/
def name_validation (value : String) : Bool :=
  !(value.toList.all Char.isWhitespace)

/-! ## Dates (`datetime.date`) -/

/-- A calendar date as CPython's `datetime.date` holds it. -/
structure PyDate where
  year : Nat
  month : Nat
  day : Nat
deriving DecidableEq, Repr

/-- Gregorian leap-year rule, as in CPython's `datetime`. -/
def isLeap (y : Nat) : Bool :=
  y % 4 == 0 && (y % 100 != 0 || y % 400 == 0)

/-- Days in a month of a given year (CPython `_days_in_month`). -/
def daysInMonth (y m : Nat) : Nat :=
  if m == 2 then (if isLeap y then 29 else 28)
  else if m == 4 || m == 6 || m == 9 || m == 11 then 30
  else 31

/-- The argument check CPython's `date` constructor performs
(`MINYEAR = 1`, `MAXYEAR = 9999`). -/
def dateValid (y m d : Nat) : Bool :=
  1 ≤ y && y ≤ 9999 && 1 ≤ m && m ≤ 12 && 1 ≤ d && d ≤ daysInMonth y m

/-- Days in all months strictly before month `m` of year `y`. -/
def daysBeforeMonth (y m : Nat) : Nat :=
  (List.range (m - 1)).foldl (fun acc i => acc + daysInMonth y (i + 1)) 0

/-- CPython `date.toordinal`: day number in the proleptic Gregorian calendar,
with `0001-01-01` having ordinal 1. -/
def PyDate.toOrdinal (d : PyDate) : Nat :=
  (d.year - 1) * 365 + (d.year - 1) / 4 - (d.year - 1) / 100 + (d.year - 1) / 400
    + daysBeforeMonth d.year d.month + d.day

/-- CPython `date.weekday()`: Monday is 0 … Sunday is 6. -/
def PyDate.weekday (d : PyDate) : Nat :=
  (d.toOrdinal + 6) % 7

/-- CPython date comparison (lexicographic on year, month, day). -/
def PyDate.lt (a b : PyDate) : Bool :=
  a.year < b.year
  || (a.year == b.year && (a.month < b.month
      || (a.month == b.month && a.day < b.day)))

/-- The calendar successor of a date (used to embed `timedelta(days=n)` addition;
CPython adds on ordinals, which agrees with calendar rollover for the in-range
dates this development manipulates). -/
def PyDate.nextDay (d : PyDate) : PyDate :=
  if d.day < daysInMonth d.year d.month then ⟨d.year, d.month, d.day + 1⟩
  else if d.month < 12 then ⟨d.year, d.month + 1, 1⟩
  else ⟨d.year + 1, 1, 1⟩

/-- `date + timedelta(days=n)`. -/
def PyDate.addDays (d : PyDate) : Nat → PyDate
  | 0 => d
  | n + 1 => d.nextDay.addDays n

/-- CPython `date.replace(year=y)`: rebuilds the date through the constructor,
which re-validates it; a leap day pushed into a non-leap year raises
`ValueError("day is out of range for month")`. -/
def PyDate.replaceYear (d : PyDate) (y : Nat) : Except PyExn PyDate :=
  if dateValid y d.month d.day then .ok ⟨y, d.month, d.day⟩
  else .error (.valueError "day is out of range for month")

/-- Two-digit zero-padded rendering (`%d`, `%m` in `strftime`). -/
def pad2 (n : Nat) : String :=
  if n < 10 then "0" ++ toString n else toString n

/-- `date.strftime("%d.%m.%Y")`.  All years formatted in this development are
four-digit, where `%Y` is the plain decimal rendering. -/
def PyDate.formatDMY (d : PyDate) : String :=
  pad2 d.day ++ "." ++ pad2 d.month ++ "." ++ toString d.year

/-! ## `datetime.strptime(value, "%d.%m.%Y")` -/

/-- Split a character list on `'.'` (the literal separators of the pattern;
the day/month/year fields of the pattern match only digits, so the dots
partition the string deterministically). -/
def splitDots : List Char → List (List Char)
  | [] => [[]]
  | c :: cs =>
    if c == '.' then [] :: splitDots cs
    else
      match splitDots cs with
      | f :: rest => (c :: f) :: rest
      | [] => [[c]]

/-- Every character an ASCII digit. -/
def allDigits (l : List Char) : Bool :=
  l.all Char.isDigit

/-- Decimal value of an ASCII digit list. -/
def digitsToNat (l : List Char) : Nat :=
  l.foldl (fun n c => n * 10 + (c.toNat - 48)) 0

/-- Python's regex `\d` (and `int()` digit) test: any Unicode decimal digit
(category Nd).  This model covers ASCII digits plus the non-ASCII decimal-digit
ranges exercised in this development (Arabic-Indic, extended Arabic-Indic and
Devanagari digits); Python accepts further Nd ranges, none of which appear in
any statement below.  Among ASCII characters the model is exact: only
`'0'..'9'` (code points 48–57) are decimal digits. -/
def pyDecDigit (c : Char) : Bool :=
  (48 ≤ c.toNat && c.toNat ≤ 57)
  || (0x660 ≤ c.toNat && c.toNat ≤ 0x669)
  || (0x6F0 ≤ c.toNat && c.toNat ≤ 0x6F9)
  || (0x966 ≤ c.toNat && c.toNat ≤ 0x96F)

/-- The decimal value `int()` assigns to a Unicode decimal digit (callers
guard with `pyDecDigit`). -/
def pyDigitVal (c : Char) : Nat :=
  if 48 ≤ c.toNat && c.toNat ≤ 57 then c.toNat - 48
  else if 0x660 ≤ c.toNat && c.toNat ≤ 0x669 then c.toNat - 0x660
  else if 0x6F0 ≤ c.toNat && c.toNat ≤ 0x6F9 then c.toNat - 0x6F0
  else if 0x966 ≤ c.toNat && c.toNat ≤ 0x96F then c.toNat - 0x966
  else 0

/-- Python `int(field)` on a field of decimal digits. -/
def pyIntOfDigits (l : List Char) : Nat :=
  l.foldl (fun n c => n * 10 + pyDigitVal c) 0

/-- The `%d` field regex `3[01]|[12]\d|0[1-9]|[1-9]`, alternative by
alternative over code points: `3[01]` is ASCII `'3'` (51) followed by ASCII
`'0'` (48) or `'1'` (49); `[12]\d` is ASCII `'1'` or `'2'` (49/50) followed by
**any Unicode decimal digit**; `0[1-9]` and `[1-9]` are ASCII.  A field must be
consumed entirely (the next pattern character is the literal dot). -/
def dayMatch : List Char → Bool
  | [c] => 49 ≤ c.toNat && c.toNat ≤ 57
  | [c1, c2] =>
    (c1.toNat == 51 && (c2.toNat == 48 || c2.toNat == 49))
    || ((c1.toNat == 49 || c1.toNat == 50) && pyDecDigit c2)
    || (c1.toNat == 48 && (49 ≤ c2.toNat && c2.toNat ≤ 57))
  | _ => false

/-- The `%d` field: match per `dayMatch`, value per `int()`. -/
def dayField (l : List Char) : Option Nat :=
  if dayMatch l then some (pyIntOfDigits l) else none

/-- The `%m` field regex `1[0-2]|0[1-9]|[1-9]`: every character class here is
explicit ASCII (no `\d`), so the month is one or two ASCII digits with value
`1..12` (`"00"` rejected). -/
def monthField (l : List Char) : Option Nat :=
  if allDigits l && (l.length == 1 || l.length == 2)
      && 1 ≤ digitsToNat l && digitsToNat l ≤ 12 then
    some (digitsToNat l)
  else none

/-- The `%Y` field regex `\d\d\d\d`: exactly four Unicode decimal digits,
value per `int()`. -/
def yearField (l : List Char) : Option Nat :=
  if l.all pyDecDigit && l.length == 4 then some (pyIntOfDigits l) else none

/-- `datetime.strptime(s, "%d.%m.%Y")`, returning the parsed date or `none`
where Python raises `ValueError`.  The whole string must be consumed; after the
regex match, `datetime`'s constructor validates the calendar date (which
rejects e.g. day 31 in April, Feb 29 in a non-leap year, and year `0000`). -/
def pyStrptimeDMY (s : String) : Option PyDate :=
  match splitDots s.toList with
  | [d, m, y] =>
    match dayField d, monthField m, yearField y with
    | some dv, some mv, some yv =>
      if 1 ≤ yv && dv ≤ daysInMonth yv mv then some ⟨yv, mv, dv⟩ else none
    | _, _, _ => none
  | _ => none

/-- `Birthday.__init__` (source lines 28–33): checks the format by calling
`strptime` and stores the original string; a parse failure raises
`ValueError("Invalid date format. Use DD.MM.YYYY")`. -/
def Birthday.init (value : String) : Except PyExn String :=
  if (pyStrptimeDMY value).isSome then .ok value
  else .error (.valueError "Invalid date format. Use DD.MM.YYYY")

/-! ## `Record` -/

/-- A contact record: the validated name string, the ordered phone list
(each entry the `value` of a `Phone` object) and the optional stored
birthday string. -/
structure Record where
  name : String
  phones : List String
  birthday : Option String
deriving DecidableEq, Repr

/-- `Record.__init__` (source lines 36–39): validates the name. -/
def Record.init (name : String) : Except PyExn Record :=
  if name_validation name then .ok ⟨name, [], none⟩
  else .error (.valueError "Name cannot be empty")

/-- `Record.find_phone` (source lines 58–62): first phone whose `value` equals
the argument, else `None`. -/
def Record.find_phone (r : Record) (phone : String) : Option String :=
  r.phones.find? (fun i => i == phone)

/-- `Record.add_phone` (source lines 44–45): `Phone(phone)` validates (raising
`ValueError("Invalid phone number")` before anything is appended), then the
new phone is appended at the end. -/
def Record.add_phone (r : Record) (phone : String) : Record × Option PyExn :=
  if phone_validation phone then ({ r with phones := r.phones ++ [phone] }, none)
  else (r, some (.valueError "Invalid phone number"))

/-- `Record.add_birthday` (source lines 41–42): validates via `Birthday` and
stores the string. -/
def Record.add_birthday (r : Record) (birthday : String) : Record × Option PyExn :=
  match Birthday.init birthday with
  | .ok v => ({ r with birthday := some v }, none)
  | .error e => (r, some e)

/-- Python `list.remove(x)` applied to the result of `find_phone`: `x` is either
a `Phone` object that is in the list (the first one with the sought value) or
`None`.  `list.remove` removes the first element equal to `x`; no `Phone`
compares equal to `None` (identity comparison), so passing the `None` sentinel
always raises `ValueError("list.remove(x): x not in list")`. -/
def pyListRemove (l : List String) (x : Option String) : Except PyExn (List String) :=
  match x with
  | some v =>
    if v ∈ l then .ok (l.erase v)
    else .error (.valueError "list.remove(x): x not in list")
  | none => .error (.valueError "list.remove(x): x not in list")

/-- `Record.remove_phone` (source lines 47–49): looks the phone up with
`find_phone` and passes the result — possibly the `None` sentinel — straight
to `list.remove`, with no guard in between. -/
def Record.remove_phone (r : Record) (phone : String) : Record × Option PyExn :=
  match pyListRemove r.phones (r.find_phone phone) with
  | .ok l => ({ r with phones := l }, none)
  | .error e => (r, some e)

/-- `Record.edit_phone` (source lines 51–56): checks that `old_phone` is
present (`raise ValueError` bare, i.e. with empty message, if not), then
`add_phone(new_phone)` (which validates the new number) and
`remove_phone(old_phone)`. -/
def Record.edit_phone (r : Record) (old_phone new_phone : String) :
    Record × Option PyExn :=
  if (r.find_phone old_phone).isNone then (r, some (.valueError ""))
  else
    match r.add_phone new_phone with
    | (r1, some e) => (r1, some e)
    | (r1, none) => r1.remove_phone old_phone

/-! ## `AddressBook` -/

/-- Python-dict assignment `d[k] = v`: overwrite in place if the key exists
(keeping its position), otherwise append at the end. -/
def dictSet : List (String × Record) → String → Record → List (String × Record)
  | [], k, v => [(k, v)]
  | p :: d, k, v => if p.1 == k then (k, v) :: d else p :: dictSet d k v

/-- Python-dict lookup `d.get(k)`. -/
def dictGet (d : List (String × Record)) (k : String) : Option Record :=
  (d.find? (fun p => p.1 == k)).map (·.2)

/-- `AddressBook`: a `UserDict`, i.e. an insertion-ordered mapping from name
strings to records. -/
structure AddressBook where
  data : List (String × Record)
deriving DecidableEq, Repr

/-- `AddressBook.add_record` (source lines 69–70):
`self.data[record.name.value] = record`. -/
def AddressBook.add_record (b : AddressBook) (r : Record) : AddressBook :=
  ⟨dictSet b.data r.name r⟩

/-- `AddressBook.find` (source lines 72–73): `self.data.get(name)`. -/
def AddressBook.find (b : AddressBook) (name : String) : Option Record :=
  dictGet b.data name

/-- `AddressBook.delete` (source lines 75–76): `self.data.pop(name, None)`. -/
def AddressBook.delete (b : AddressBook) (name : String) :
    AddressBook × Option Record :=
  (⟨b.data.filter (fun p => !(p.1 == name))⟩, dictGet b.data name)

/-! ## `get_upcoming_birthdays` (source lines 81–108)

The Python method reads `date.today()`; the embedding takes that ambient input
as the explicit parameter `today`.  An exception raised while processing any
record aborts the whole call, which the `Except` result models. -/

/-- The weekend shift applied to the congratulation date (source lines 96–101):
Saturday moves 2 days to Monday, Sunday moves 1 day. -/
def congratDate (d : PyDate) : PyDate :=
  if d.weekday == 5 then d.addDays 2
  else if d.weekday == 6 then d.addDays 1
  else d

/-- Processing of one record in the loop body (source lines 85–106): parse the
stored birthday, move it to `today`'s year (`date.replace`, which can raise),
move to next year if already passed, and if the delta in days is within `0..7`
emit the `(name, formatted congratulation date)` pair. -/
def upcomingOne (today : PyDate) (r : Record) :
    Except PyExn (Option (String × String)) :=
  match r.birthday with
  | none => .ok none
  | some bstr =>
    match pyStrptimeDMY bstr with
    | none => .error (.valueError "Invalid date format. Use DD.MM.YYYY")
    | some bd =>
      match bd.replaceYear today.year with
      | .error e => .error e
      | .ok t1 =>
        match (if t1.lt today then bd.replaceYear (today.year + 1) else .ok t1) with
        | .error e => .error e
        | .ok bty =>
          if 0 ≤ ((bty.toOrdinal : Int) - (today.toOrdinal : Int))
              ∧ ((bty.toOrdinal : Int) - (today.toOrdinal : Int)) ≤ 7 then
            .ok (some (r.name, (congratDate bty).formatDMY))
          else .ok none

/-- The loop over `self.data.values()`, accumulating the emitted pairs in
iteration order and propagating the first exception. -/
def upcomingAux (today : PyDate) : List Record → Except PyExn (List (String × String))
  | [] => .ok []
  | r :: rs =>
    match upcomingOne today r with
    | .error e => .error e
    | .ok o =>
      match upcomingAux today rs with
      | .error e => .error e
      | .ok t =>
        match o with
        | none => .ok t
        | some p => .ok (p :: t)

/-- `AddressBook.get_upcoming_birthdays`, with `date.today()` as parameter. -/
def AddressBook.get_upcoming_birthdays (b : AddressBook) (today : PyDate) :
    Except PyExn (List (String × String)) :=
  upcomingAux today (b.data.map (·.2))

/-! ## Spec-side definitions (written from the specification's words, for the
refinement-style claims) -/

/-- The next occurrence of a birthday relative to `today`, as the spec words it:
this year's occurrence of the birthday's month/day, or next year's if this
year's has already passed relative to `today`. -/
def specNextOccurrence (today bd : PyDate) : PyDate :=
  if (PyDate.mk today.year bd.month bd.day).lt today then
    ⟨today.year + 1, bd.month, bd.day⟩
  else ⟨today.year, bd.month, bd.day⟩

/-- The congratulation date as the spec words it: the occurrence, shifted
forward 2 days when it is a Saturday and 1 day when it is a Sunday. -/
def specCongrat (occ : PyDate) : PyDate :=
  if occ.weekday == 5 then occ.addDays 2
  else if occ.weekday == 6 then occ.addDays 1
  else occ

/-- The delta, in days, from `today` to the next occurrence of the birthday
(spec side; day differences are ordinal differences). -/
def specDelta (today bd : PyDate) : Int :=
  ((specNextOccurrence today bd).toOrdinal : Int) - (today.toOrdinal : Int)

/-- The spec's description of an acceptable birthday string: day, month and
4-digit year with `.` separators (day and month written with one or two
digits), denoting a real calendar date. -/
def specBirthdayFormat (s : String) : Bool :=
  match splitDots s.toList with
  | [d, m, y] =>
    allDigits d && (1 ≤ d.length && d.length ≤ 2)
      && allDigits m && (1 ≤ m.length && m.length ≤ 2)
      && allDigits y && y.length == 4
      && dateValid (digitsToNat y) (digitsToNat m) (digitsToNat d)
  | _ => false

/-! ## Concrete fixtures used by witnesses, counterexamples and examples -/

/-- A record with one phone. -/
def recAnn : Record := ⟨"Ann", ["1234567890"], none⟩

/-- A record with a duplicated phone entry. -/
def recEve : Record := ⟨"Eve", ["0123456789", "0123456789"], none⟩

/-- A record with a duplicated phone separated by another entry. -/
def recSam : Record := ⟨"Sam", ["1111111111", "2222222222", "1111111111"], none⟩

/-- First record named Kim. -/
def recKim1 : Record := ⟨"Kim", ["1234567890"], none⟩

/-- Second record named Kim, with different contents. -/
def recKim2 : Record := ⟨"Kim", [], some "12.06.1990"⟩

/-- Book with a birthday falling on Wednesday 12.06.2024. -/
def bookJohn : AddressBook := ⟨[("John", ⟨"John", [], some "12.06.1990"⟩)]⟩

/-- Book with a birthday falling on Saturday 15.06.2024. -/
def bookBob : AddressBook := ⟨[("Bob", ⟨"Bob", [], some "15.06.1990"⟩)]⟩

/-- Book with a leap-day birthday. -/
def bookLeap : AddressBook := ⟨[("Leap", ⟨"Leap", [], some "29.02.2020"⟩)]⟩

/-! ## Helper lemmas -/

theorem find_beq_of_mem {l : List String} {a : String} (h : a ∈ l) :
    l.find? (fun i => i == a) = some a := by
  induction l with
  | nil => cases h
  | cons c cs ih =>
    rcases List.mem_cons.mp h with h1 | h1
    · subst h1; simp [List.find?]
    · by_cases hc : c = a
      · subst hc; simp [List.find?]
      · simp only [List.find?, beq_false_of_ne hc]
        exact ih h1

theorem find_beq_of_not_mem {l : List String} {a : String} (h : a ∉ l) :
    l.find? (fun i => i == a) = none :=
  List.find?_eq_none.mpr fun x hx hbeq => h (beq_iff_eq.mp hbeq ▸ hx)

/-- Behaviour of a successful `edit_phone`: the first occurrence of the old
phone is erased and the new phone is appended at the end. -/
theorem edit_phone_present_eq (r : Record) (old_phone new_phone : String)
    (h1 : old_phone ∈ r.phones) (h2 : phone_validation new_phone = true) :
    r.edit_phone old_phone new_phone =
      (⟨r.name, r.phones.erase old_phone ++ [new_phone], r.birthday⟩, none) := by
  have hf : r.find_phone old_phone = some old_phone := find_beq_of_mem h1
  have hf2 : (r.phones ++ [new_phone]).find? (fun i => i == old_phone) = some old_phone :=
    find_beq_of_mem (List.mem_append_left _ h1)
  simp only [Record.edit_phone, hf, Option.isNone_some, Bool.false_eq_true, if_false,
    Record.add_phone, h2, if_true, Record.remove_phone, Record.find_phone, pyListRemove, hf2]
  rw [if_pos (List.mem_append_left [new_phone] h1), List.erase_append_left _ h1]
  simp [find_beq_of_mem h1]

theorem dictGet_set_self (d : List (String × Record)) (k : String) (v : Record) :
    dictGet (dictSet d k v) k = some v := by
  induction d with
  | nil => simp [dictSet, dictGet, List.find?]
  | cons p d ih =>
    by_cases hp : p.1 = k
    · simp [dictSet, hp, dictGet, List.find?]
    · simp only [dictSet, beq_false_of_ne hp, if_false]
      simpa [dictGet, List.find?, beq_false_of_ne hp] using ih

theorem dictGet_set_other (d : List (String × Record)) (k : String) (v : Record)
    (n : String) (h : n ≠ k) : dictGet (dictSet d k v) n = dictGet d n := by
  induction d with
  | nil => simp [dictSet, dictGet, List.find?, beq_false_of_ne (fun e => h e.symm)]
  | cons p d ih =>
    by_cases hp : p.1 = k
    · have hk : (k == n) = false := beq_false_of_ne (fun e => h e.symm)
      simp [dictSet, hp, dictGet, List.find?, hk]
    · simp only [dictSet, beq_false_of_ne hp, if_false]
      by_cases hn : p.1 = n
      · simp [dictGet, List.find?, hn]
      · simp only [dictGet, List.find?, beq_false_of_ne hn]
        simpa [dictGet] using ih

theorem isDigit_toNat {c : Char} (h : c.isDigit = true) :
    48 ≤ c.toNat ∧ c.toNat ≤ 57 := by
  simp only [Char.isDigit, Bool.and_eq_true, decide_eq_true_eq] at h
  obtain ⟨h1, h2⟩ := h
  exact ⟨UInt32.le_toNat_of_le (by decide) h1, UInt32.toNat_le_of_le (by decide) h2⟩

/-- Among ASCII characters, Python's numeric test coincides with the ASCII
digit test (no ASCII character outside `'0'..'9'` has a Unicode numeric
value). -/
theorem pyIsNumericChar_ascii {c : Char} (h : c.toNat < 128) :
    pyIsNumericChar c = c.isDigit := by
  cases hd : c.isDigit with
  | true => simp [pyIsNumericChar, hd]
  | false =>
    have hb2 : (c.toNat == 0xB2) = false := beq_eq_false_iff_ne.mpr (by omega)
    have hb3 : (c.toNat == 0xB3) = false := beq_eq_false_iff_ne.mpr (by omega)
    have hb9 : (c.toNat == 0xB9) = false := beq_eq_false_iff_ne.mpr (by omega)
    simp only [pyIsNumericChar, hd, Bool.false_or, hb2, hb3, hb9,
      decide_eq_false (p := 0x660 ≤ c.toNat) (by omega),
      decide_eq_false (p := 0x6F0 ≤ c.toNat) (by omega),
      decide_eq_false (p := 0x966 ≤ c.toNat) (by omega),
      decide_eq_false (p := 0xBC ≤ c.toNat) (by omega),
      Bool.false_and, Bool.or_self, Bool.or_false]

theorem foldl_digits_lt (l : List Char) (a : Nat) (h : allDigits l = true) :
    l.foldl (fun n c => n * 10 + (c.toNat - 48)) a < (a + 1) * 10 ^ l.length := by
  induction l generalizing a with
  | nil => simp
  | cons c cs ih =>
    simp only [allDigits, List.all_cons, Bool.and_eq_true] at h
    obtain ⟨hc, hcs⟩ := h
    have hd : c.toNat - 48 ≤ 9 := by have := isDigit_toNat hc; omega
    calc (c :: cs).foldl (fun n c => n * 10 + (c.toNat - 48)) a
        = cs.foldl (fun n c => n * 10 + (c.toNat - 48)) (a * 10 + (c.toNat - 48)) := rfl
      _ < (a * 10 + (c.toNat - 48) + 1) * 10 ^ cs.length := ih _ hcs
      _ ≤ ((a + 1) * 10) * 10 ^ cs.length :=
          Nat.mul_le_mul_right _ (by omega)
      _ = (a + 1) * 10 ^ (c :: cs).length := by
          rw [List.length_cons, Nat.pow_succ]; ring

theorem digitsToNat_lt {l : List Char} (h : allDigits l = true) :
    digitsToNat l < 10 ^ l.length := by
  simpa [digitsToNat] using foldl_digits_lt l 0 h

theorem toNat_isDigit {c : Char} (h1 : 48 ≤ c.toNat) (h2 : c.toNat ≤ 57) :
    c.isDigit = true := by
  have hv : c.toNat = c.val.toBitVec.toNat := rfl
  simp only [Char.isDigit, Bool.and_eq_true, decide_eq_true_eq]
  constructor
  · rw [ge_iff_le, UInt32.le_def, BitVec.le_def]
    have h48 : (48 : UInt32).toBitVec.toNat = 48 := rfl
    omega
  · rw [UInt32.le_def, BitVec.le_def]
    have h57 : (57 : UInt32).toBitVec.toNat = 57 := rfl
    omega

/-- Among ASCII characters the only Unicode decimal digits are `'0'..'9'`. -/
theorem pyDecDigit_ascii {c : Char} (hc : c.toNat < 128) (h : pyDecDigit c = true) :
    48 ≤ c.toNat ∧ c.toNat ≤ 57 := by
  simp only [pyDecDigit, Bool.or_eq_true, Bool.and_eq_true, decide_eq_true_eq] at h
  rcases h with ((h | h) | h) | h
  · exact h
  · omega
  · omega
  · omega

theorem pyDigitVal_of_ascii {c : Char} (h1 : 48 ≤ c.toNat) (h2 : c.toNat ≤ 57) :
    pyDigitVal c = c.toNat - 48 := by
  have hcond : (decide (48 ≤ c.toNat) && decide (c.toNat ≤ 57)) = true := by
    simp [h1, h2]
  simp [pyDigitVal, hcond]

theorem foldl_pyDigitVal_eq (l : List Char) :
    (∀ c ∈ l, 48 ≤ c.toNat ∧ c.toNat ≤ 57) →
    ∀ a, l.foldl (fun n c => n * 10 + pyDigitVal c) a
      = l.foldl (fun n c => n * 10 + (c.toNat - 48)) a := by
  induction l with
  | nil => intro _ a; rfl
  | cons c cs ih =>
    intro h a
    simp only [List.foldl_cons]
    rw [pyDigitVal_of_ascii (h c (List.mem_cons_self c cs)).1
      (h c (List.mem_cons_self c cs)).2]
    exact ih (fun x hx => h x (List.mem_cons_of_mem _ hx)) _

/-- On ASCII digit fields, Python's `int()` is plain decimal reading. -/
theorem pyIntOfDigits_eq_digitsToNat {l : List Char}
    (h : ∀ c ∈ l, 48 ≤ c.toNat ∧ c.toNat ≤ 57) :
    pyIntOfDigits l = digitsToNat l :=
  foldl_pyDigitVal_eq l h 0

/-- Splitting on dots only ever redistributes the original characters. -/
theorem mem_splitDots {cs lc : List Char} {c : Char}
    (h1 : lc ∈ splitDots cs) (h2 : c ∈ lc) : c ∈ cs := by
  induction cs generalizing lc with
  | nil =>
    unfold splitDots at h1
    have he := List.mem_singleton.mp h1
    subst he
    cases h2
  | cons c0 cs ih =>
    unfold splitDots at h1
    by_cases hdot : c0 = '.'
    · rw [if_pos (by simp [hdot])] at h1
      rcases List.mem_cons.mp h1 with he | h1
      · subst he; cases h2
      · exact List.mem_cons_of_mem _ (ih h1 h2)
    · rw [if_neg (by simp [hdot])] at h1
      cases hsd : splitDots cs with
      | nil =>
        rw [hsd] at h1
        dsimp only at h1
        have he := List.mem_singleton.mp h1
        subst he
        have hc := List.mem_singleton.mp h2
        subst hc
        exact List.mem_cons_self _ _
      | cons f rest =>
        rw [hsd] at h1
        dsimp only at h1
        rcases List.mem_cons.mp h1 with he | h1
        · subst he
          rcases List.mem_cons.mp h2 with hc | h2
          · subst hc; exact List.mem_cons_self _ _
          · exact List.mem_cons_of_mem _
              (ih (by rw [hsd]; exact List.mem_cons_self _ _) h2)
        · exact List.mem_cons_of_mem _
            (ih (by rw [hsd]; exact List.mem_cons_of_mem _ h1) h2)

/-- What acceptance by the `%d` field implies for an ASCII field. -/
theorem dayField_some_ascii {l : List Char} {v : Nat}
    (hA : ∀ c ∈ l, c.toNat < 128) (h : dayField l = some v) :
    allDigits l = true ∧ (1 ≤ l.length ∧ l.length ≤ 2) ∧ 1 ≤ v
      ∧ v = digitsToNat l := by
  unfold dayField at h
  split at h
  · next hm =>
    injection h with hv
    subst hv
    cases l with
    | nil => simp [dayMatch] at hm
    | cons c1 ls =>
      cases ls with
      | nil =>
        simp only [dayMatch, Bool.and_eq_true, decide_eq_true_eq] at hm
        obtain ⟨h1, h2⟩ := hm
        have hb1 : 48 ≤ c1.toNat ∧ c1.toNat ≤ 57 := by omega
        have e : pyIntOfDigits [c1] = digitsToNat [c1] :=
          pyIntOfDigits_eq_digitsToNat (by
            intro c hc
            have hc1 := List.mem_singleton.mp hc
            subst hc1
            exact hb1)
        have hval : pyIntOfDigits [c1] = c1.toNat - 48 := by
          simp [pyIntOfDigits, pyDigitVal_of_ascii hb1.1 hb1.2]
        refine ⟨?_, ⟨by simp, by simp⟩, ?_, e⟩
        · simp [allDigits, toNat_isDigit hb1.1 hb1.2]
        · rw [hval]; omega
      | cons c2 ls2 =>
        cases ls2 with
        | cons c3 ls3 => simp [dayMatch] at hm
        | nil =>
          have hA2 : c2.toNat < 128 := hA c2 (by simp)
          simp only [dayMatch, Bool.or_eq_true, Bool.and_eq_true,
            decide_eq_true_eq, beq_iff_eq] at hm
          have hb : (48 ≤ c1.toNat ∧ c1.toNat ≤ 57) ∧ (48 ≤ c2.toNat ∧ c2.toNat ≤ 57)
              ∧ 1 ≤ (c1.toNat - 48) * 10 + (c2.toNat - 48) := by
            rcases hm with (⟨ha, hbb⟩ | ⟨ha, hbb⟩) | ⟨ha, hbb⟩
            · rcases hbb with hbb | hbb <;>
                exact ⟨⟨by omega, by omega⟩, ⟨by omega, by omega⟩, by omega⟩
            · have hd2 := pyDecDigit_ascii hA2 hbb
              rcases ha with ha | ha <;>
                exact ⟨⟨by omega, by omega⟩, ⟨by omega, by omega⟩, by omega⟩
            · exact ⟨⟨by omega, by omega⟩, ⟨by omega, by omega⟩, by omega⟩
          obtain ⟨hb1, hb2, hb3⟩ := hb
          have e : pyIntOfDigits [c1, c2] = digitsToNat [c1, c2] :=
            pyIntOfDigits_eq_digitsToNat (by
              intro c hc
              rcases List.mem_cons.mp hc with hc1 | hc2
              · subst hc1; exact hb1
              · have hc2' := List.mem_singleton.mp hc2
                subst hc2'
                exact hb2)
          have hval : pyIntOfDigits [c1, c2]
              = (c1.toNat - 48) * 10 + (c2.toNat - 48) := by
            simp [pyIntOfDigits, pyDigitVal_of_ascii hb1.1 hb1.2,
              pyDigitVal_of_ascii hb2.1 hb2.2]
          refine ⟨?_, ⟨by simp, by simp⟩, ?_, e⟩
          · simp [allDigits, toNat_isDigit hb1.1 hb1.2, toNat_isDigit hb2.1 hb2.2]
          · rw [hval]; omega
  · cases h

theorem monthField_some {l : List Char} {v : Nat} (h : monthField l = some v) :
    allDigits l = true ∧ (1 ≤ l.length ∧ l.length ≤ 2) ∧ 1 ≤ v ∧ v ≤ 12
      ∧ v = digitsToNat l := by
  unfold monthField at h
  split at h
  · next hcond =>
    injection h with hv
    subst hv
    simp only [Bool.and_eq_true, Bool.or_eq_true, beq_iff_eq, decide_eq_true_eq] at hcond
    obtain ⟨⟨⟨hd, hlen⟩, h1⟩, h2⟩ := hcond
    refine ⟨hd, ?_, h1, h2, rfl⟩
    rcases hlen with h | h <;> omega
  · cases h

/-- What acceptance by the `%Y` field implies for an ASCII field. -/
theorem yearField_some_ascii {l : List Char} {v : Nat}
    (hA : ∀ c ∈ l, c.toNat < 128) (h : yearField l = some v) :
    allDigits l = true ∧ l.length = 4 ∧ v = digitsToNat l := by
  unfold yearField at h
  split at h
  · next hcond =>
    injection h with hv
    subst hv
    simp only [Bool.and_eq_true, beq_iff_eq, List.all_eq_true] at hcond
    obtain ⟨hall, hlen⟩ := hcond
    have hbound : ∀ c ∈ l, 48 ≤ c.toNat ∧ c.toNat ≤ 57 := fun c hc =>
      pyDecDigit_ascii (hA c hc) (hall c hc)
    refine ⟨?_, hlen, pyIntOfDigits_eq_digitsToNat hbound⟩
    exact List.all_eq_true.mpr fun c hc =>
      toNat_isDigit (hbound c hc).1 (hbound c hc).2
  · cases h

/-! ## Claims -/

/-- C4 (counterexample): Python's `isnumeric` accepts every Unicode numeric
character, not only ASCII digits, so the length-10 string of Arabic-Indic
digits passes phone validation although none of its characters is an ASCII
digit — falsifying the claim that validation fails for any string containing
a character that is not an ASCII digit. -/
theorem C4_phone_validation_counterexample :
    phone_validation "٠١٢٣٤٥٦٧٨٩" = true
      ∧ "٠١٢٣٤٥٦٧٨٩".length = 10
      ∧ "٠١٢٣٤٥٦٧٨٩".toList.all Char.isDigit = false :=
  ⟨by decide, by decide, by decide⟩

/-- C4 (amended): for every **ASCII** string `s`, phone validation succeeds
exactly when `s` has length exactly 10 and every character is an ASCII digit;
on non-ASCII strings Python's `isnumeric` is broader, accepting any Unicode
numeric character (e.g. the Arabic-Indic digits of the counterexample). -/
theorem C4_phone_validation_ascii (s : String)
    (h : s.toList.all (fun c => c.toNat < 128) = true) :
    phone_validation s = true ↔ s.length = 10 ∧ s.toList.all Char.isDigit = true := by
  have hascii : ∀ c ∈ s.toList, c.toNat < 128 := by
    intro c hc
    simpa using List.all_eq_true.mp h c hc
  constructor
  · intro hv
    simp only [phone_validation, pyIsNumeric, Bool.and_eq_true, beq_iff_eq] at hv
    obtain ⟨hl, _, hall⟩ := hv
    refine ⟨hl, List.all_eq_true.mpr fun c hc => ?_⟩
    rw [← pyIsNumericChar_ascii (hascii c hc)]
    exact List.all_eq_true.mp hall c hc
  · rintro ⟨hl, hall⟩
    simp only [phone_validation, pyIsNumeric, Bool.and_eq_true, beq_iff_eq]
    refine ⟨hl, ?_, List.all_eq_true.mpr fun c hc => ?_⟩
    · have hlen : s.toList.length = 10 := hl
      cases hne : s.toList with
      | nil => rw [hne] at hlen; simp at hlen
      | cons a as => rfl
    · rw [pyIsNumericChar_ascii (hascii c hc)]
      exact List.all_eq_true.mp hall c hc

theorem C4_phone_validation_ascii_witness :
    ("1234567890".toList.all (fun c => c.toNat < 128) = true)
      ∧ ("1234567890".length = 10 ∧ "1234567890".toList.all Char.isDigit = true)
      ∧ phone_validation "1234567890" = true := by
  have h := (C4_phone_validation_ascii "1234567890" (by decide)).mpr ⟨by decide, by decide⟩
  exact ⟨by decide, ⟨by decide, by decide⟩, h⟩

/-- C2: for every record and every phone string `old` not present in the
record's phone list, `edit_phone(old, new)` fails — with the bare `ValueError`
the code raises for a missing edit target — and leaves the record (hence its
phone list) exactly as it was.  The equation holds for **every** `new_phone`,
valid or not, so the old phone's existence is checked before any mutation and
before `new` is validated, and the failed call leaves the record with neither
the removal of `old` nor the addition of `new` applied. -/
theorem C2_edit_phone_absent_atomic (r : Record) (old_phone new_phone : String)
    (h : r.find_phone old_phone = none) :
    r.edit_phone old_phone new_phone = (r, some (.valueError "")) := by
  simp [Record.edit_phone, h]

theorem C2_edit_phone_absent_atomic_witness :
    recAnn.find_phone "0000000000" = none
      ∧ phone_validation "12ab" = false
      ∧ recAnn.edit_phone "0000000000" "12ab" = (recAnn, some (.valueError "")) :=
  ⟨by decide, by decide,
    C2_edit_phone_absent_atomic recAnn "0000000000" "12ab" (by decide)⟩

/-- C3 (counterexample): `remove_phone` of an absent phone does fail and does
leave the list unchanged, but not the way the claim states: the `None`
sentinel returned by `find_phone` is passed, unguarded, straight to
`list.remove`, and the resulting error is `list.remove`'s own
`ValueError("list.remove(x): x not in list")` — an error the code's own
`input_error` translation classifies as malformed input ("Insufficient data"),
not as either of its contact-not-found messages.  An implementation that
guarded the sentinel explicitly could never surface `list.remove`'s message. -/
theorem C3_remove_phone_counterexample :
    recAnn.find_phone "0000000000" = none
      ∧ recAnn.remove_phone "0000000000"
          = (recAnn, some (.valueError "list.remove(x): x not in list"))
      ∧ input_error (.valueError "list.remove(x): x not in list") = "Insufficient data"
      ∧ input_error (.keyError "") = "Contact is not found."
      ∧ input_error (.attributeError "") = "Contact not found." :=
  ⟨by decide, by decide, rfl, rfl, rfl⟩

/-- C3 (amended): for every record and phone string with no matching entry,
`remove_phone` fails — the sentinel from `find_phone` is handed to list
removal, whose `ValueError("list.remove(x): x not in list")` is the error the
caller sees — and the record, hence its phone list, is left unchanged. -/
theorem C3_remove_phone_absent (r : Record) (v : String)
    (h : r.find_phone v = none) :
    r.remove_phone v = (r, some (.valueError "list.remove(x): x not in list")) := by
  simp [Record.remove_phone, h, pyListRemove]

theorem C3_remove_phone_absent_witness :
    recSam.find_phone "9999999999" = none
      ∧ recSam.remove_phone "9999999999"
          = (recSam, some (.valueError "list.remove(x): x not in list")) :=
  ⟨by decide, C3_remove_phone_absent recSam "9999999999" (by decide)⟩

/-- C6 (counterexample): on a record whose phone list contains the old phone
twice, `edit_phone` succeeds (no exception) yet `find_phone(old)` still
returns the old phone afterwards, because only the first occurrence is
removed; this falsifies the claim that after every successful
`edit_phone(old, new)` the old phone is absent. -/
theorem C6_edit_phone_counterexample :
    "0123456789" ∈ recEve.phones
      ∧ phone_validation "1111111111" = true
      ∧ (recEve.edit_phone "0123456789" "1111111111").2 = none
      ∧ (recEve.edit_phone "0123456789" "1111111111").1.find_phone "0123456789"
          = some "0123456789" :=
  ⟨by decide, by decide, by decide, by decide⟩

/-- C6 (amended): for every record whose phone list contains `old` exactly
once and every valid phone string `new` different from `old`, after
`edit_phone(old, new)` succeeds, `find_phone(old)` returns absent and
`find_phone(new)` returns present; in general only the first occurrence of
`old` is removed, so duplicates of `old` (or `new = old`) keep `old` present. -/
theorem C6_edit_phone_unique (r : Record) (old_phone new_phone : String)
    (h1 : r.phones.count old_phone = 1) (h2 : phone_validation new_phone = true)
    (h3 : new_phone ≠ old_phone) :
    (r.edit_phone old_phone new_phone).2 = none
      ∧ (r.edit_phone old_phone new_phone).1.find_phone old_phone = none
      ∧ (r.edit_phone old_phone new_phone).1.find_phone new_phone = some new_phone := by
  have hm : old_phone ∈ r.phones := List.count_pos_iff.mp (by omega)
  rw [edit_phone_present_eq r old_phone new_phone hm h2]
  refine ⟨rfl, ?_, ?_⟩ <;> simp only [Record.find_phone]
  · apply find_beq_of_not_mem
    intro hmem
    rcases List.mem_append.mp hmem with hmem | hmem
    · have h0 : (r.phones.erase old_phone).count old_phone = 0 := by
        rw [List.count_erase_self, h1]
      exact List.count_eq_zero.mp h0 hmem
    · exact h3 (List.mem_singleton.mp hmem).symm
  · exact find_beq_of_mem (List.mem_append_right _ (List.mem_singleton_self _))

theorem C6_edit_phone_unique_witness :
    recAnn.phones.count "1234567890" = 1
      ∧ phone_validation "5550001111" = true
      ∧ ("5550001111" : String) ≠ "1234567890"
      ∧ (recAnn.edit_phone "1234567890" "5550001111").2 = none
      ∧ (recAnn.edit_phone "1234567890" "5550001111").1.find_phone "1234567890" = none
      ∧ (recAnn.edit_phone "1234567890" "5550001111").1.find_phone "5550001111"
          = some "5550001111" := by
  have h := C6_edit_phone_unique recAnn "1234567890" "5550001111"
    (by decide) (by decide) (by decide)
  exact ⟨by decide, by decide, by decide, h.1, h.2.1, h.2.2⟩

/-- C8: `add_record` called with two records of the same name raises nothing
(it is a total function in this embedding, as dict assignment cannot fail) and
the second record overwrites the first: a subsequent `find` of that name
returns the second record. -/
theorem C8_add_record_overwrites (b : AddressBook) (r1 r2 : Record)
    (h : r2.name = r1.name) :
    ((b.add_record r1).add_record r2).find r1.name = some r2 := by
  simp only [AddressBook.add_record, AddressBook.find, h]
  exact dictGet_set_self _ _ _

theorem C8_add_record_overwrites_witness :
    recKim2.name = recKim1.name
      ∧ (((AddressBook.mk []).add_record recKim1).add_record recKim2).find recKim1.name
          = some recKim2 :=
  ⟨rfl, C8_add_record_overwrites ⟨[]⟩ recKim1 recKim2 rfl⟩

/-- C9: a successful `edit_phone(old, new)` appends `new` at the end of the
phone list and removes exactly the first entry equal to `old`: the result is
`erase old ++ [new]`, so every other entry (including later duplicates of
`old`) keeps its value and relative order, and name and birthday are
untouched. -/
theorem C9_edit_phone_frame (r : Record) (old_phone new_phone : String)
    (h1 : old_phone ∈ r.phones) (h2 : phone_validation new_phone = true) :
    r.edit_phone old_phone new_phone =
      (⟨r.name, r.phones.erase old_phone ++ [new_phone], r.birthday⟩, none) :=
  edit_phone_present_eq r old_phone new_phone h1 h2

theorem C9_edit_phone_frame_witness :
    "1111111111" ∈ recSam.phones
      ∧ phone_validation "3333333333" = true
      ∧ recSam.edit_phone "1111111111" "3333333333"
          = (⟨"Sam", ["2222222222", "1111111111", "3333333333"], none⟩, none) := by
  refine ⟨by decide, by decide, ?_⟩
  rw [C9_edit_phone_frame recSam "1111111111" "3333333333" (by decide) (by decide)]
  decide

/-- C10: `add_record` changes only the entry keyed by the record's own name:
for every other name `n`, `find n` after `add_record r` equals `find n`
before it. -/
theorem C10_add_record_frame (b : AddressBook) (r : Record) (n : String)
    (h : n ≠ r.name) : (b.add_record r).find n = b.find n :=
  dictGet_set_other b.data r.name r n h

theorem C10_add_record_frame_witness :
    ("Bob" : String) ≠ recKim1.name
      ∧ (bookBob.add_record recKim1).find "Bob" = bookBob.find "Bob" :=
  ⟨by decide, C10_add_record_frame bookBob recKim1 "Bob" (by decide)⟩

/-- C5 (counterexample): CPython's `strptime` matches the second day digit and
all four year digits with Unicode `\d`, and `int()` converts Unicode decimal
digits, so birthday validation accepts `"12.06.٢٠٢٤"` (Arabic-Indic year) and
`"1٢.06.2024"` (Arabic-Indic second day digit) — both parse to 12.06.2024 —
although neither matches day/month/4-digit-year in (ASCII) digits; this
falsifies the claim that validation fails for every string not in that
format. -/
theorem C5_birthday_validation_counterexample :
    Birthday.init "12.06.٢٠٢٤" = .ok "12.06.٢٠٢٤"
      ∧ specBirthdayFormat "12.06.٢٠٢٤" = false
      ∧ Birthday.init "1٢.06.2024" = .ok "1٢.06.2024"
      ∧ specBirthdayFormat "1٢.06.2024" = false :=
  ⟨by rfl, by rfl, by rfl, by rfl⟩

/-- C5 (amended): for every **ASCII** string, birthday validation accepts it
only if it is day, month and 4-digit year with `.` separators denoting a real
calendar date (every accepted ASCII string satisfies the spec-side format
predicate); beyond ASCII, `strptime`'s `\d` classes and `int()` also accept
Unicode decimal digits in the year and in the second day digit (see the
counterexample).  In particular `"31.04.2024"` fails (April has 30 days),
`"29.02.2024"` succeeds (leap year) and `"29.02.2023"` fails, each failure
with the code's `ValueError("Invalid date format. Use DD.MM.YYYY")`.  Note
`strptime`'s `%d` and `%m` accept one- or two-digit day and month, which the
spec's wording "day/month/4-digit-year" covers. -/
theorem C5_birthday_validation_ascii :
    (∀ s t, s.toList.all (fun c => c.toNat < 128) = true →
        Birthday.init s = .ok t → specBirthdayFormat s = true)
      ∧ Birthday.init "31.04.2024"
          = .error (.valueError "Invalid date format. Use DD.MM.YYYY")
      ∧ Birthday.init "29.02.2024" = .ok "29.02.2024"
      ∧ Birthday.init "29.02.2023"
          = .error (.valueError "Invalid date format. Use DD.MM.YYYY") := by
  refine ⟨?_, by rfl, by rfl, by rfl⟩
  intro s t hascii hok
  have hA : ∀ c ∈ s.toList, c.toNat < 128 := by
    intro c hc
    simpa using List.all_eq_true.mp hascii c hc
  have hsome : (pyStrptimeDMY s).isSome = true := by
    by_cases hc : (pyStrptimeDMY s).isSome = true
    · exact hc
    · simp [Birthday.init, hc] at hok
  unfold pyStrptimeDMY at hsome
  unfold specBirthdayFormat
  cases hsp : splitDots s.toList with
  | nil => rw [hsp] at hsome; simp at hsome
  | cons d rest =>
    cases rest with
    | nil => rw [hsp] at hsome; simp at hsome
    | cons m rest2 =>
      cases rest2 with
      | nil => rw [hsp] at hsome; simp at hsome
      | cons y rest3 =>
        cases rest3 with
        | cons w ws => rw [hsp] at hsome; simp at hsome
        | nil =>
          rw [hsp] at hsome
          dsimp only at hsome ⊢
          have hdA : ∀ c ∈ d, c.toNat < 128 := fun c hc =>
            hA c (mem_splitDots (by rw [hsp]; exact List.mem_cons_self _ _) hc)
          have hyA : ∀ c ∈ y, c.toNat < 128 := fun c hc =>
            hA c (mem_splitDots (by rw [hsp]; simp) hc)
          rcases hday : dayField d with _ | dv
          · rw [hday] at hsome; simp at hsome
          rcases hmon : monthField m with _ | mv
          · rw [hday, hmon] at hsome; simp at hsome
          rcases hyear : yearField y with _ | yv
          · rw [hday, hmon, hyear] at hsome; simp at hsome
          rw [hday, hmon, hyear] at hsome
          dsimp only at hsome
          cases hcond : (1 ≤ yv && dv ≤ daysInMonth yv mv) with
          | false => rw [hcond] at hsome; simp at hsome
          | true =>
            obtain ⟨hdd, hdl, hdv1, hdveq⟩ := dayField_some_ascii hdA hday
            obtain ⟨hmd, hml, hmv1, hmv12, hmveq⟩ := monthField_some hmon
            obtain ⟨hyd, hyl, hyveq⟩ := yearField_some_ascii hyA hyear
            have hy4 : digitsToNat y < 10000 := by
              have hb := digitsToNat_lt hyd
              rw [hyl] at hb
              norm_num at hb
              exact hb
            simp only [Bool.and_eq_true, decide_eq_true_eq] at hcond
            obtain ⟨hy1, hdm⟩ := hcond
            subst hdveq hmveq hyveq
            simp only [Bool.and_eq_true, decide_eq_true_eq, beq_iff_eq, dateValid]
            and_intros <;> first | assumption | omega

theorem C5_birthday_validation_ascii_witness :
    ("29.02.2024".toList.all (fun c => c.toNat < 128) = true)
      ∧ Birthday.init "29.02.2024" = .ok "29.02.2024"
      ∧ specBirthdayFormat "29.02.2024" = true :=
  ⟨by decide, by rfl,
    C5_birthday_validation_ascii.1 "29.02.2024" "29.02.2024" (by decide) (by rfl)⟩

theorem specCongrat_eq_congratDate (d : PyDate) : specCongrat d = congratDate d := rfl

/-- The name in any pair emitted for a record is that record's name. -/
theorem upcomingOne_name {today : PyDate} {r : Record} {p : String × String}
    (h : upcomingOne today r = .ok (some p)) : p.1 = r.name := by
  unfold upcomingOne at h
  split at h
  · simp at h
  · split at h
    · cases h
    · split at h
      · cases h
      · split at h
        · cases h
        · split at h
          · injection h with h2
            injection h2 with h3
            rw [← h3]
          · simp at h

/-- If the whole loop succeeded, processing each traversed record succeeded. -/
theorem upcomingAux_ok_of_mem {today : PyDate} {rs : List Record}
    {l : List (String × String)} (h : upcomingAux today rs = .ok l)
    {r : Record} (hr : r ∈ rs) : ∃ o, upcomingOne today r = .ok o := by
  induction rs generalizing l with
  | nil => cases hr
  | cons r0 rs ih =>
    unfold upcomingAux at h
    cases ho : upcomingOne today r0 with
    | error e => rw [ho] at h; cases h
    | ok o0 =>
      rw [ho] at h
      dsimp only at h
      cases ht : upcomingAux today rs with
      | error e => rw [ht] at h; cases h
      | ok t =>
        rcases List.mem_cons.mp hr with h1 | h1
        · subst h1; exact ⟨o0, ho⟩
        · exact ih ht h1

/-- Membership in the successful result characterised record-wise. -/
theorem upcomingAux_mem_iff {today : PyDate} {rs : List Record}
    {l : List (String × String)} (h : upcomingAux today rs = .ok l)
    (p : String × String) :
    p ∈ l ↔ ∃ r, r ∈ rs ∧ upcomingOne today r = .ok (some p) := by
  induction rs generalizing l with
  | nil =>
    unfold upcomingAux at h
    injection h with h
    subst h
    simp
  | cons r0 rs ih =>
    unfold upcomingAux at h
    cases ho : upcomingOne today r0 with
    | error e => rw [ho] at h; cases h
    | ok o0 =>
      rw [ho] at h
      dsimp only at h
      cases ht : upcomingAux today rs with
      | error e => rw [ht] at h; cases h
      | ok t =>
        rw [ht] at h
        dsimp only at h
        cases o0 with
        | none =>
          injection h with h
          subst h
          rw [ih ht]
          constructor
          · rintro ⟨r, hr, hro⟩
            exact ⟨r, List.mem_cons_of_mem _ hr, hro⟩
          · rintro ⟨r, hr, hro⟩
            rcases List.mem_cons.mp hr with h1 | h1
            · subst h1
              have hc := ho.symm.trans hro
              simp at hc
            · exact ⟨r, h1, hro⟩
        | some p0 =>
          injection h with h
          subst h
          constructor
          · intro hp
            rcases List.mem_cons.mp hp with h1 | h1
            · subst h1
              exact ⟨r0, List.mem_cons_self _ _, ho⟩
            · rcases (ih ht).mp h1 with ⟨r, hr, hro⟩
              exact ⟨r, List.mem_cons_of_mem _ hr, hro⟩
          · rintro ⟨r, hr, hro⟩
            rcases List.mem_cons.mp hr with h1 | h1
            · subst h1
              have hc := ho.symm.trans hro
              injection hc with h2
              injection h2 with h3
              rw [h3]
              exact List.mem_cons_self _ _
            · exact List.mem_cons_of_mem _ ((ih ht).mpr ⟨r, h1, hro⟩)

/-- Characterisation of the per-record computation when the stored birthday
parses: it succeeds exactly on the spec-side next occurrence, emitting the
pair when the spec-side delta lies in `0..7` and nothing otherwise. -/
theorem upcomingOne_spec {today : PyDate} {r : Record} {bstr : String}
    {bd : PyDate} {o : Option (String × String)}
    (hb : r.birthday = some bstr) (hp : pyStrptimeDMY bstr = some bd)
    (h : upcomingOne today r = .ok o) :
    ((0 ≤ specDelta today bd ∧ specDelta today bd ≤ 7)
        ∧ o = some (r.name, (specCongrat (specNextOccurrence today bd)).formatDMY))
      ∨ (¬ (0 ≤ specDelta today bd ∧ specDelta today bd ≤ 7) ∧ o = none) := by
  unfold upcomingOne at h
  rw [hb] at h
  dsimp only at h
  rw [hp] at h
  dsimp only at h
  cases hv1 : dateValid today.year bd.month bd.day with
  | false =>
    rw [show bd.replaceYear today.year
        = Except.error (.valueError "day is out of range for month") from by
      simp [PyDate.replaceYear, hv1]] at h
    cases h
  | true =>
    rw [show bd.replaceYear today.year = Except.ok ⟨today.year, bd.month, bd.day⟩ from by
      simp [PyDate.replaceYear, hv1]] at h
    dsimp only at h
    cases hlt : PyDate.lt ⟨today.year, bd.month, bd.day⟩ today with
    | false =>
      rw [hlt] at h
      rw [if_neg Bool.false_ne_true] at h
      dsimp only at h
      have hocc : specNextOccurrence today bd = ⟨today.year, bd.month, bd.day⟩ := by
        simp [specNextOccurrence, hlt]
      by_cases hδ : 0 ≤ ((PyDate.toOrdinal ⟨today.year, bd.month, bd.day⟩ : Int)
            - (PyDate.toOrdinal today : Int))
          ∧ ((PyDate.toOrdinal ⟨today.year, bd.month, bd.day⟩ : Int)
            - (PyDate.toOrdinal today : Int)) ≤ 7
      · rw [if_pos hδ] at h
        left
        refine ⟨by simpa [specDelta, hocc] using hδ, ?_⟩
        rw [hocc, specCongrat_eq_congratDate]
        injection h with h2
        exact h2.symm
      · rw [if_neg hδ] at h
        right
        refine ⟨by simpa [specDelta, hocc] using hδ, ?_⟩
        injection h with h2
        exact h2.symm
    | true =>
      rw [hlt] at h
      rw [if_pos rfl] at h
      have hocc : specNextOccurrence today bd = ⟨today.year + 1, bd.month, bd.day⟩ := by
        simp [specNextOccurrence, hlt]
      cases hv2 : dateValid (today.year + 1) bd.month bd.day with
      | false =>
        rw [show bd.replaceYear (today.year + 1)
            = Except.error (.valueError "day is out of range for month") from by
          simp [PyDate.replaceYear, hv2]] at h
        cases h
      | true =>
        rw [show bd.replaceYear (today.year + 1)
            = Except.ok ⟨today.year + 1, bd.month, bd.day⟩ from by
          simp [PyDate.replaceYear, hv2]] at h
        dsimp only at h
        by_cases hδ : 0 ≤ ((PyDate.toOrdinal ⟨today.year + 1, bd.month, bd.day⟩ : Int)
              - (PyDate.toOrdinal today : Int))
            ∧ ((PyDate.toOrdinal ⟨today.year + 1, bd.month, bd.day⟩ : Int)
              - (PyDate.toOrdinal today : Int)) ≤ 7
        · rw [if_pos hδ] at h
          left
          refine ⟨by simpa [specDelta, hocc] using hδ, ?_⟩
          rw [hocc, specCongrat_eq_congratDate]
          injection h with h2
          exact h2.symm
        · rw [if_neg hδ] at h
          right
          refine ⟨by simpa [specDelta, hocc] using hδ, ?_⟩
          injection h with h2
          exact h2.symm

/-- C1: for every collection and every record in it that has a (parseable)
birthday, whenever `get_upcoming_birthdays` succeeds, the result mentions the
record's name exactly when the next occurrence of its birthday (this year's,
or next year's if this year's has already passed relative to `today`) lies 0
to 7 days from `today` inclusive; the reported congratulation date is that
occurrence shifted forward 2 days on a Saturday and 1 day on a Sunday.  In
particular, with today = 10.06.2024, a birthday 12.06.1990 yields
congratulation date 12.06.2024 and a birthday 15.06.1990 yields 17.06.2024.
(The record names are assumed pairwise distinct, as dict keying guarantees
for collections built through `add_record`.) -/
theorem C1_upcoming_birthdays :
    (∀ (b : AddressBook) (today : PyDate) (l : List (String × String)) (r : Record)
        (bstr : String) (bd : PyDate),
        (b.data.map (fun q => q.2.name)).Nodup →
        b.get_upcoming_birthdays today = .ok l →
        r ∈ b.data.map (fun q => q.2) →
        r.birthday = some bstr →
        pyStrptimeDMY bstr = some bd →
        (((∃ ds, (r.name, ds) ∈ l)
            ↔ (0 ≤ specDelta today bd ∧ specDelta today bd ≤ 7))
          ∧ ∀ ds, (r.name, ds) ∈ l →
              ds = (specCongrat (specNextOccurrence today bd)).formatDMY))
      ∧ bookJohn.get_upcoming_birthdays ⟨2024, 6, 10⟩ = .ok [("John", "12.06.2024")]
      ∧ bookBob.get_upcoming_birthdays ⟨2024, 6, 10⟩ = .ok [("Bob", "17.06.2024")] := by
  refine ⟨?_, by rfl, by rfl⟩
  intro b today l r bstr bd hnd hok hr hb hp
  have hok' : upcomingAux today (b.data.map (fun q => q.2)) = .ok l := hok
  obtain ⟨o, ho⟩ := upcomingAux_ok_of_mem hok' hr
  have hchar := upcomingOne_spec hb hp ho
  have hnames : ∀ r1 ∈ b.data.map (fun q => q.2), ∀ r2 ∈ b.data.map (fun q => q.2),
      r1.name = r2.name → r1 = r2 := by
    apply List.inj_on_of_nodup_map
    rw [List.map_map]
    simpa [Function.comp] using hnd
  constructor
  · constructor
    · rintro ⟨ds, hds⟩
      obtain ⟨r', hr', hro'⟩ := (upcomingAux_mem_iff hok' _).mp hds
      have heq : r' = r := hnames r' hr' r hr (upcomingOne_name hro').symm
      subst heq
      rcases hchar with ⟨h1, _⟩ | ⟨_, h3⟩
      · exact h1
      · have hc := ho.symm.trans hro'
        rw [h3] at hc
        simp at hc
    · intro hδ
      rcases hchar with ⟨_, h3⟩ | ⟨h1, _⟩
      · exact ⟨_, (upcomingAux_mem_iff hok' _).mpr ⟨r, hr, by rw [ho, h3]⟩⟩
      · exact absurd hδ h1
  · intro ds hds
    obtain ⟨r', hr', hro'⟩ := (upcomingAux_mem_iff hok' _).mp hds
    have heq : r' = r := hnames r' hr' r hr (upcomingOne_name hro').symm
    subst heq
    rcases hchar with ⟨_, h3⟩ | ⟨_, h3⟩
    · have hc := ho.symm.trans hro'
      rw [h3] at hc
      injection hc with h4
      injection h4 with h5
      exact (congrArg Prod.snd h5).symm
    · have hc := ho.symm.trans hro'
      rw [h3] at hc
      simp at hc

theorem C1_upcoming_birthdays_witness :
    (bookJohn.data.map (fun q => q.2.name)).Nodup
      ∧ ((∃ ds, ("John", ds) ∈ [("John", "12.06.2024")])
          ↔ (0 ≤ specDelta ⟨2024, 6, 10⟩ ⟨1990, 6, 12⟩
              ∧ specDelta ⟨2024, 6, 10⟩ ⟨1990, 6, 12⟩ ≤ 7))
      ∧ ∀ ds, ("John", ds) ∈ [("John", "12.06.2024")] →
          ds = (specCongrat (specNextOccurrence ⟨2024, 6, 10⟩ ⟨1990, 6, 12⟩)).formatDMY := by
  have h := C1_upcoming_birthdays.1 bookJohn ⟨2024, 6, 10⟩ [("John", "12.06.2024")]
    ⟨"John", [], some "12.06.1990"⟩ "12.06.1990" ⟨1990, 6, 12⟩
    (by simp [bookJohn]) (by rfl) (by simp [bookJohn]) (by rfl) (by rfl)
  exact ⟨by simp [bookJohn], h.1, h.2⟩

/-- C7: the claim says a Feb-29 birthday evaluated against a non-leap `today`
year must not fail; the code contradicts it: `birthday_date.replace(year=...)`
(source line 89) raises `ValueError("day is out of range for month")` the
moment it rebuilds Feb 29 in a non-leap year, so the whole
`get_upcoming_birthdays` call fails.  The record's birthday `"29.02.2020"` is
itself perfectly valid (it passes `Birthday` validation), and 2023 is not a
leap year, so this failing input is reachable. -/
theorem C7_leap_day_crash :
    bookLeap.get_upcoming_birthdays ⟨2023, 6, 10⟩
        = .error (.valueError "day is out of range for month")
      ∧ Birthday.init "29.02.2020" = .ok "29.02.2020"
      ∧ isLeap 2023 = false :=
  ⟨by rfl, by rfl, by rfl⟩

end HW1
